import Mathlib

/-!
Verification development for the metrics batch driver (src/main.go).

The Go program walks a directory tree for candidate `.py` files, sends one
HTTP request per file to a test-generation service, folds the streamed JSON
event response into a `Metrics` record, and appends one row per successful
file to an Excel sheet, saving after every row.

This file gives a shallow embedding of that program:
  * the regex-based numeric extraction (`\d+(\.\d+)?` FindAllString and
    `\d+` FindString) and `toFloat` (main.go lines 212-221, 237-287, 302-308);
  * the per-event reduction of the streamed events into `Metrics`
    (main.go lines 199-299), where Go's unchecked interface-to-string type
    assertions on possibly-absent map keys are modelled by `Option` with
    `none` standing for a runtime panic;
  * the candidate enumerator's per-file filter (main.go lines 56-68, 142-144);
  * the batch driver loop (main.go lines 93-133, 147-163) as a trace of
    dispatch / record / persist actions with an explicit clock.

Numeric values are modelled as rationals: every number the program handles is
produced by parsing an unsigned decimal digit string, which is exact in ℚ.
-/

namespace MetricsScript

/-- Longest prefix of digit characters and the remaining suffix.  Building
block for the Go regexes `\d+` and `\d+(\.\d+)?` used in main.go. -/
def digitRun : List Char → List Char × List Char
  | [] => ([], [])
  | c :: cs =>
    if c.isDigit then
      let p := digitRun cs
      (c :: p.1, p.2)
    else ([], c :: cs)

/-- Leftmost match of `\d+` as a character list (empty if no digit occurs):
the semantics of `regexp.MustCompile("\\d+").FindString` in main.go
lines 237-287. -/
def findFirstIntAux : List Char → List Char
  | [] => []
  | c :: cs => if c.isDigit then (digitRun (c :: cs)).1 else findFirstIntAux cs

/-- Go `FindString` for the pattern `\d+`: first integer substring, or the
empty string when the text has no digit. -/
def findFirstInt (s : String) : String := String.mk (findFirstIntAux s.data)

/-- Optional fractional part `(\.\d+)?` continuing a digit run: consumes
`.` followed by at least one digit, else consumes nothing. -/
def decMatchAfter : List Char → List Char × List Char
  | [] => ([], [])
  | c :: r2 =>
    if c = '.' then
      let p := digitRun r2
      if p.1 = [] then ([], c :: r2) else (c :: p.1, p.2)
    else ([], c :: r2)

/-- All leftmost matches of `\d+(\.\d+)?`, scanning left to right, each match
greedy; fuel is the length of the text, which each step strictly decreases.
Semantics of `regexp.MustCompile("\\d+(\\.\\d+)?").FindAllString(s, -1)` in
main.go lines 214-215. -/
def findAllDecAux : Nat → List Char → List (List Char)
  | 0, _ => []
  | _ + 1, [] => []
  | fuel + 1, c :: cs =>
    if c.isDigit then
      let d := digitRun (c :: cs)
      let f := decMatchAfter d.2
      (d.1 ++ f.1) :: findAllDecAux fuel f.2
    else
      findAllDecAux fuel cs

/-- All matches of `\d+(\.\d+)?` in a string, in order. -/
def findAllDec (s : String) : List String :=
  (findAllDecAux s.data.length s.data).map String.mk

/-- Numeric value of one decimal digit character. -/
def digitVal (c : Char) : Nat := c.toNat - '0'.toNat

/-- Value of a digit string read in base 10. -/
def natOfDigits (l : List Char) : Nat := l.foldl (fun a c => a * 10 + digitVal c) 0

/-- Models `toFloat` (main.go lines 302-308): `strconv.ParseFloat` with 0
returned on any parse error, restricted to the unsigned decimal strings the
extraction patterns can produce (`digits` or `digits.digits`); anything
outside that fragment is a parse error and yields 0. -/
def toFloat (s : String) : ℚ :=
  match digitRun s.data with
  | ([], _) => 0
  | (ip, []) => (natOfDigits ip : ℚ)
  | (ip, '.' :: fr) =>
    match digitRun fr with
    | (fp, []) =>
      if fp = [] then 0
      else (natOfDigits ip : ℚ) + (natOfDigits fp : ℚ) / ((10 : ℚ) ^ fp.length)
    | _ => 0
  | _ => 0

/-- The per-file result record (main.go lines 30-36). -/
structure Metrics where
  initialCoverage : ℚ
  finalCoverage : ℚ
  linesCovered : ℚ
  totalLines : ℚ
  testAdded : ℚ
deriving DecidableEq

/-- The loop state before any event arrives (main.go line 199: all five
accumulator variables start at their zero value). -/
def Metrics.zero : Metrics := ⟨0, 0, 0, 0, 0⟩

/-- One decoded JSON object from the response stream, restricted to the keys
the loop in main.go lines 201-288 reads.  `some s` means the key is present
with a string value; `none` means absent or not a string, on which Go's
unchecked type assertion `.(string)` panics. -/
structure RawEvent where
  dataType : Option String
  calculatedCoverage : Option String
  coverageIncreased : Option String
  linesCovered : Option String
  totalLines : Option String
  testAdded : Option String
deriving DecidableEq

/-- The literal sentinel compared against `coverageIncreased`
(main.go line 233). -/
def coverageSentinel : String := "Coverage did not increase"

/-- Processing of the `coverageIncreased` field of a `summary` event
(main.go lines 227-244): an absent or non-string value first sets the field
to 0 and then panics at the unchecked assertion on line 238 (modelled as
`none`); an empty string sets it to 0; the sentinel text copies
`initialCoverage`; finally a `\d+` match, when present, overrides everything,
and when no digits are found the value from the earlier steps stands. -/
def coverageField (initial old : ℚ) : Option String → Option ℚ
  | none => none
  | some s =>
    let v0 := if s = "" then 0 else old
    let v1 := if s = coverageSentinel then initial else v0
    if findFirstInt s = "" then some v1 else some (toFloat (findFirstInt s))

/-- Processing of one of the `linesCovered` / `totalLines` / `testAdded`
fields of a `summary` event (main.go lines 246-286): an absent or non-string
value sets the field to 0 and then panics at the unchecked assertion
(modelled as `none`); an empty string sets it to 0; a `\d+` match overrides;
with no digits in a non-empty string the previous value stands. -/
def intField (old : ℚ) : Option String → Option ℚ
  | none => none
  | some s =>
    let v0 := if s = "" then 0 else old
    if findFirstInt s = "" then some v0 else some (toFloat (findFirstInt s))

/-- The `summary` branch of the event loop (main.go lines 224-287): the four
fields are processed in program order, so the first absent field panics. -/
def processSummary (st : Metrics) (e : RawEvent) : Option Metrics :=
  match coverageField st.initialCoverage st.finalCoverage e.coverageIncreased with
  | none => none
  | some fc =>
    match intField st.linesCovered e.linesCovered with
    | none => none
    | some lc =>
      match intField st.totalLines e.totalLines with
      | none => none
      | some tl =>
        match intField st.testAdded e.testAdded with
        | none => none
        | some ta =>
          some { st with finalCoverage := fc, linesCovered := lc,
                         totalLines := tl, testAdded := ta }

/-- The `calculatedCoverage` branch of the event loop (main.go lines
212-222): an absent or non-string payload panics at the unchecked assertion
on line 215 (modelled as `none`); otherwise the last `\d+(\.\d+)?` match, if
any, becomes `initialCoverage`, and with no match the state is unchanged. -/
def processCalculated (st : Metrics) (e : RawEvent) : Option Metrics :=
  if e.dataType = some "calculatedCoverage" then
    match e.calculatedCoverage with
    | none => none
    | some s =>
      match (findAllDec s).getLast? with
      | some m => some { st with initialCoverage := toFloat m }
      | none => some st
  else some st

/-- One iteration of the event loop body (main.go lines 212-287): the two
discriminator tests are successive independent `if`s on `dataType`. -/
def processEvent (st : Metrics) (e : RawEvent) : Option Metrics :=
  match processCalculated st e with
  | none => none
  | some st2 => if e.dataType = some "summary" then processSummary st2 e else some st2

/-- The decode loop of `sendRequest` folded over an event sequence that ends
in clean end-of-stream (main.go lines 201-288); `none` is a panic. -/
def reduceEvents : Metrics → List RawEvent → Option Metrics
  | st, [] => some st
  | st, e :: rest =>
    match processEvent st e with
    | none => none
    | some st2 => reduceEvents st2 rest

/-- The Metrics value `sendRequest` returns for a stream of decoded events
ending in clean end-of-stream (main.go lines 199-299). -/
def sendRequestMetrics (events : List RawEvent) : Option Metrics :=
  reduceEvents Metrics.zero events

/-- Event with discriminator `calculatedCoverage` and payload text `s`. -/
def ccEvent (s : String) : RawEvent :=
  ⟨some "calculatedCoverage", some s, none, none, none, none⟩

/-- Event with discriminator `summary` and the four payload fields. -/
def summaryEvent (ci lc tl ta : Option String) : RawEvent :=
  ⟨some "summary", none, ci, lc, tl, ta⟩

/-- The value a freshly derived summary field takes: the first `\d+` match
when one exists, 0 otherwise. -/
def derivedField (s : String) : ℚ :=
  if findFirstInt s = "" then 0 else toFloat (findFirstInt s)

/-- The shape of one `\d+(\.\d+)?` match: one or more digits, optionally
followed by a decimal point and one or more further digits — the wording of
the extraction pattern in the spec. -/
def NumShape (l : List Char) : Prop :=
  ∃ d1, d1 ≠ [] ∧ (∀ c ∈ d1, c.isDigit = true) ∧
    (l = d1 ∨ ∃ d2, d2 ≠ [] ∧ (∀ c ∈ d2, c.isDigit = true) ∧ l = d1 ++ '.' :: d2)

/-- Whether `sub` is a prefix of the list at any position. -/
def containsAux (sub : List Char) : List Char → Bool
  | [] => sub.isPrefixOf []
  | c :: cs => sub.isPrefixOf (c :: cs) || containsAux sub cs

/-- Go `strings.Contains s sub`: `sub` occurs in `s` as a contiguous
substring. -/
def containsStr (s sub : String) : Bool := containsAux sub.data s.data

/-- `isTestFile` (main.go lines 142-144): the whole path is searched for the
substrings "_test.go" and "test_". -/
def isTestFile (path : String) : Bool :=
  containsStr path "_test.go" || containsStr path "test_"

/-- Go `filepath.Ext`: scan the path backwards; the suffix from the final
dot of the final slash-separated element, empty when a separator is met
first or no dot occurs.  The first argument is the reversed path, the second
accumulates the characters already passed. -/
def pathExtGo : List Char → List Char → String
  | [], _ => ""
  | c :: cs, acc =>
    if c = '/' then ""
    else if c = '.' then String.mk ('.' :: acc)
    else pathExtGo cs (c :: acc)

/-- `filepath.Ext path` as used on main.go line 64. -/
def pathExt (p : String) : String := pathExtGo p.data.reverse []

/-- `info.Name()`: the final slash-separated element of the path. -/
def baseNameGo : List Char → List Char → String
  | [], acc => String.mk acc
  | c :: cs, acc => if c = '/' then String.mk acc else baseNameGo cs (c :: acc)

/-- The base name of a path. -/
def baseName (p : String) : String := baseNameGo p.data.reverse []

/-- The per-file acceptance test of the walk callback (main.go lines 64-66)
for a non-directory path: keep `.py` files that are not test files and not
`__init__.py`. -/
def walkAccepts (p : String) : Bool :=
  pathExt p == ".py" && !isTestFile p && baseName p != "__init__.py"

/-- The candidate enumerator restricted to its per-file filter: of the file
paths the walk visits, those appended to `goFiles` (main.go lines 55-68). -/
def enumerate (paths : List String) : List String := paths.filter walkAccepts

/-- The per-item failure kinds returned by `sendRequest` / `measureDuration`
(main.go lines 165-192, 208-210): request marshalling, request construction
or transport failure, a non-200 status (with its code and body), or a JSON
stream decode error. -/
inductive ItemError where
  | requestConstruction
  | transport
  | nonOkStatus (code : Nat) (body : String)
  | streamDecode
deriving DecidableEq

/-- `true` exactly on the error outcomes of an item. -/
def isErr : Except ItemError Metrics → Bool
  | Except.ok _ => false
  | Except.error _ => true

/-- One work item as the driver sees it: its path, the wall-clock duration
its processing takes, and the outcome `measureDuration` returns for it. -/
structure ItemRun where
  file : String
  dur : Nat
  outcome : Except ItemError Metrics

/-- Total duration of a list of item runs. -/
def durSum (l : List ItemRun) : Nat := (l.map ItemRun.dur).sum

/-- Observable steps of the batch loop (main.go lines 93-133), with an
explicit clock: `dispatch` is the request being issued for item `idx` with
the start timestamp captured just before (line 148), `record` is the row
appended for a successful item (lines 118-122), `persist` is the SaveAs call
flushing the sheet (line 125). -/
inductive DriverAction where
  | dispatch (idx : Nat) (file : String) (startTime : Nat)
  | record (idx : Nat) (file : String) (m : Metrics) (startTime endTime : Nat)
  | persist (idx : Nat)

/-- The trace of the batch loop from item index `idx` at clock time `clock`:
each item is dispatched; on error the loop logs and continues with no record
(lines 106-109); on success the row is appended and the file saved before
the next item starts (lines 117-132). -/
def driverTrace : Nat → Nat → List ItemRun → List DriverAction
  | _, _, [] => []
  | idx, clock, r :: rest =>
    DriverAction.dispatch idx r.file clock ::
      ((match r.outcome with
        | Except.ok m =>
          [DriverAction.record idx r.file m clock (clock + r.dur), DriverAction.persist idx]
        | Except.error _ => []) ++ driverTrace (idx + 1) (clock + r.dur) rest)

/-- `true` on `dispatch` actions. -/
def isDispatch : DriverAction → Bool
  | DriverAction.dispatch _ _ _ => true
  | _ => false

/-- `true` on `record` actions. -/
def isRecordAct : DriverAction → Bool
  | DriverAction.record _ _ _ _ _ => true
  | _ => false

/-- Number of work items dispatched in a trace. -/
def countDispatch (t : List DriverAction) : Nat := (t.filter isDispatch).length

/-- Number of BatchRecords appended in a trace. -/
def countRecord (t : List DriverAction) : Nat := (t.filter isRecordAct).length

/-- All five fields of a Metrics record are non-negative. -/
def MetricsNonneg (m : Metrics) : Prop :=
  0 ≤ m.initialCoverage ∧ 0 ≤ m.finalCoverage ∧ 0 ≤ m.linesCovered ∧
    0 ≤ m.totalLines ∧ 0 ≤ m.testAdded

/-- A two-item batch whose first item fails with a stream decode error. -/
def sampleRunsA : List ItemRun :=
  [⟨"a.py", 5, Except.error ItemError.streamDecode⟩,
   ⟨"b.py", 3, Except.ok ⟨1, 2, 3, 4, 5⟩⟩]

/-- A two-item batch whose first item succeeds. -/
def sampleRunsB : List ItemRun :=
  [⟨"a.py", 5, Except.ok ⟨30, 30, 0, 0, 0⟩⟩,
   ⟨"b.py", 3, Except.error ItemError.transport⟩]

/-- A present string field of a `summary` event never panics: `intField`
always yields a value on `some s`. -/
theorem intField_some (old : ℚ) (s : String) : ∃ v, intField old (some s) = some v := by
  unfold intField
  by_cases h : findFirstInt s = "" <;> simp [h]

/-- Likewise for the coverage-delta field. -/
theorem coverageField_some (i o : ℚ) (s : String) :
    ∃ v, coverageField i o (some s) = some v := by
  unfold coverageField
  by_cases h : findFirstInt s = "" <;> simp [h]

/-- The sentinel text contains no digit, so the `\d+` extraction after the
sentinel check finds nothing and the carried-forward value survives. -/
theorem coverageField_sentinel (i o : ℚ) :
    coverageField i o (some coverageSentinel) = some i := by
  have h1 : findFirstInt coverageSentinel = "" := by decide
  have h2 : coverageSentinel = "" ↔ False := by decide
  simp [coverageField, h1, h2]

/-- Claim C2: for every reachable reducer state, a `summary` event whose
coverage-delta field is exactly the sentinel "Coverage did not increase"
carries the accumulated `initialCoverage` forward into `finalCoverage`,
whatever the other three text fields contain; in particular a stream of a
`calculatedCoverage` event reading 30 followed by such a summary yields
initial = 30 and final = 30. -/
theorem coverage_carry_forward :
    (∀ (st : Metrics) (lc tl ta : String),
      ∃ m, processEvent st
          (summaryEvent (some coverageSentinel) (some lc) (some tl) (some ta)) = some m ∧
        m.finalCoverage = st.initialCoverage ∧ m.initialCoverage = st.initialCoverage) ∧
    sendRequestMetrics [ccEvent "30%",
        summaryEvent (some coverageSentinel) (some "") (some "") (some "")] =
      some ⟨30, 30, 0, 0, 0⟩ := by
  constructor
  · intro st lc tl ta
    obtain ⟨v1, hv1⟩ := intField_some st.linesCovered lc
    obtain ⟨v2, hv2⟩ := intField_some st.totalLines tl
    obtain ⟨v3, hv3⟩ := intField_some st.testAdded ta
    refine ⟨{ st with finalCoverage := st.initialCoverage, linesCovered := v1, totalLines := v2, testAdded := v3 }, ?_, rfl, rfl⟩
    simp [processEvent, processCalculated, summaryEvent, processSummary,
      coverageField_sentinel, hv1, hv2, hv3]
  · decide

/-- One step of the decode loop, phrased with `Option.bind`. -/
theorem reduceEvents_cons (st : Metrics) (e : RawEvent) (rest : List RawEvent) :
    reduceEvents st (e :: rest) = (processEvent st e).bind fun st2 => reduceEvents st2 rest := by
  cases h : processEvent st e <;> simp [reduceEvents, h]

/-- An integer summary field whose text is empty or contains a digit
evaluates independently of the previously accumulated value. -/
theorem intField_eval (old : ℚ) (s : String) (h : s = "" ∨ findFirstInt s ≠ "") :
    intField old (some s) = some (derivedField s) := by
  rcases h with h | h
  · subst h
    have h0 : findFirstInt "" = "" := rfl
    simp [intField, derivedField, h0]
  · simp [intField, derivedField, h]

/-- The same for the coverage-delta field (its sentinel and carry-forward
paths are overridden whenever a digit is present, and an empty text falls to
0 before the sentinel comparison can fire). -/
theorem coverageField_eval (i o : ℚ) (s : String) (h : s = "" ∨ findFirstInt s ≠ "") :
    coverageField i o (some s) = some (derivedField s) := by
  rcases h with h | h
  · subst h
    have h0 : findFirstInt "" = "" := rfl
    have h1 : ¬ ("" = coverageSentinel) := by decide
    simp [coverageField, derivedField, h0, h1]
  · simp [coverageField, derivedField, h]

/-- Claim C3 (counterexample): two `summary` events; the second one's
`linesCovered` text "none" is non-empty but digit-free, so main.go lines
252-258 neither zero the field nor overwrite it, and the first summary's 5
survives — whereas the second summary alone would have produced 0.  The last
summary's derived values therefore do not always win. -/
theorem last_summary_cex :
    sendRequestMetrics
        [summaryEvent (some "5") (some "5") (some "5") (some "5"),
         summaryEvent (some "7") (some "none") (some "7") (some "7")] =
      some ⟨0, 7, 5, 7, 7⟩ ∧
    sendRequestMetrics [summaryEvent (some "7") (some "none") (some "7") (some "7")] =
      some ⟨0, 7, 0, 7, 7⟩ := by
  exact ⟨by decide, by decide⟩

/-- Claim C3 (amended): for a last `summary` event each of whose four text
fields is either empty or contains a digit (the sentinel path aside), the
event's derived values overwrite whatever any earlier events accumulated:
the resulting finalCoverage, linesCovered, totalLines and testAdded all equal
the values the same event produces alone from the empty state.  A non-empty
digit-free field instead keeps the previously accumulated value (no 0.0
fallback), as the counterexample shows. -/
theorem last_summary_wins (st : Metrics) (c l t a : String)
    (hc : c = "" ∨ findFirstInt c ≠ "") (hl : l = "" ∨ findFirstInt l ≠ "")
    (ht : t = "" ∨ findFirstInt t ≠ "") (ha : a = "" ∨ findFirstInt a ≠ "") :
    ∃ m malone,
      processEvent st (summaryEvent (some c) (some l) (some t) (some a)) = some m ∧
      sendRequestMetrics [summaryEvent (some c) (some l) (some t) (some a)] = some malone ∧
      m.finalCoverage = malone.finalCoverage ∧ m.linesCovered = malone.linesCovered ∧
      m.totalLines = malone.totalLines ∧ m.testAdded = malone.testAdded := by
  refine ⟨{ st with finalCoverage := derivedField c, linesCovered := derivedField l, totalLines := derivedField t, testAdded := derivedField a },
    { Metrics.zero with finalCoverage := derivedField c, linesCovered := derivedField l, totalLines := derivedField t, testAdded := derivedField a },
    ?_, ?_, rfl, rfl, rfl, rfl⟩
  · simp [processEvent, processCalculated, summaryEvent, processSummary,
      coverageField_eval _ _ c hc, intField_eval _ l hl, intField_eval _ t ht,
      intField_eval _ a ha]
  · simp [sendRequestMetrics, reduceEvents_cons, reduceEvents, processEvent,
      processCalculated, summaryEvent, processSummary,
      coverageField_eval _ _ c hc, intField_eval _ l hl, intField_eval _ t ht,
      intField_eval _ a ha]

/-- Witness for the amended C3 theorem at a concrete input. -/
theorem last_summary_wins_witness :
    ∃ m malone,
      processEvent ⟨1, 2, 3, 4, 5⟩ (summaryEvent (some "9") (some "") (some "8") (some "7")) = some m ∧
      sendRequestMetrics [summaryEvent (some "9") (some "") (some "8") (some "7")] = some malone ∧
      m.finalCoverage = malone.finalCoverage ∧ m.linesCovered = malone.linesCovered ∧
      m.totalLines = malone.totalLines ∧ m.testAdded = malone.testAdded :=
  last_summary_wins ⟨1, 2, 3, 4, 5⟩ "9" "" "8" "7"
    (Or.inr (by decide)) (Or.inl rfl) (Or.inr (by decide)) (Or.inr (by decide))

/-- Claim C4: two `calculatedCoverage` events reading 10 then 20, followed by
a `summary` whose delta text is "5": the last coverage reading wins for
`initialCoverage` and the explicit digit in the delta field overrides the
carry-forward, whatever the other three summary fields contain. -/
theorem ordering_law (lc tl ta : String) :
    ∃ m, sendRequestMetrics
        [ccEvent "10%", ccEvent "20%",
         summaryEvent (some "5") (some lc) (some tl) (some ta)] = some m ∧
      m.initialCoverage = 20 ∧ m.finalCoverage = 5 := by
  obtain ⟨v1, hv1⟩ := intField_some (0 : ℚ) lc
  obtain ⟨v2, hv2⟩ := intField_some (0 : ℚ) tl
  obtain ⟨v3, hv3⟩ := intField_some (0 : ℚ) ta
  have e1 : processEvent Metrics.zero (ccEvent "10%") = some ⟨10, 0, 0, 0, 0⟩ := by decide
  have e2 : processEvent ⟨10, 0, 0, 0, 0⟩ (ccEvent "20%") = some ⟨20, 0, 0, 0, 0⟩ := by decide
  have ec : coverageField (20 : ℚ) 0 (some "5") = some 5 := by decide
  have esum : processEvent ⟨20, 0, 0, 0, 0⟩
      (summaryEvent (some "5") (some lc) (some tl) (some ta)) = some ⟨20, 5, v1, v2, v3⟩ := by
    simp [processEvent, processCalculated, summaryEvent, processSummary, ec, hv1, hv2, hv3]
  refine ⟨⟨20, 5, v1, v2, v3⟩, ?_, rfl, rfl⟩
  simp [sendRequestMetrics, reduceEvents_cons, e1, e2, esum, reduceEvents]

/-- Every character of a digit run is a digit. -/
theorem digitRun_digits : ∀ (l : List Char), ∀ c ∈ (digitRun l).1, c.isDigit = true := by
  intro l
  induction l with
  | nil => simp [digitRun]
  | cons c cs ih =>
    by_cases h : c.isDigit
    · simp only [digitRun, if_pos h]
      intro x hx
      rcases List.mem_cons.mp hx with rfl | hx
      · exact h
      · exact ih x hx
    · simp [digitRun, h]

/-- `digitRun` splits exactly at the first non-digit: a digit prefix followed
by a suffix that is empty or starts with a non-digit is returned as is. -/
theorem digitRun_of_digits : ∀ (d r : List Char), (∀ c ∈ d, c.isDigit = true) →
    (r = [] ∨ ∃ c r2, r = c :: r2 ∧ c.isDigit = false) → digitRun (d ++ r) = (d, r) := by
  intro d
  induction d with
  | nil =>
    intro r _ hr
    rcases hr with rfl | ⟨c, r2, rfl, hc⟩
    · rfl
    · simp [digitRun, hc]
  | cons x xs ih =>
    intro r hd hr
    have hx : x.isDigit = true := hd x (by simp)
    have hrec : digitRun (xs ++ r) = (xs, r) := ih r (fun c hc => hd c (by simp [hc])) hr
    simp [digitRun, hx, hrec]

/-- The optional fractional continuation is either nothing or a decimal
point followed by a non-empty digit run. -/
theorem decMatchAfter_cases (r : List Char) :
    (decMatchAfter r).1 = [] ∨
      ∃ d2, d2 ≠ [] ∧ (∀ c ∈ d2, c.isDigit = true) ∧ (decMatchAfter r).1 = '.' :: d2 := by
  cases r with
  | nil => exact Or.inl rfl
  | cons c r2 =>
    by_cases hc : c = '.'
    · subst hc
      by_cases hp : (digitRun r2).1 = []
      · exact Or.inl (by simp [decMatchAfter, hp])
      · exact Or.inr ⟨(digitRun r2).1, hp, digitRun_digits r2, by simp [decMatchAfter, hp]⟩
    · exact Or.inl (by simp [decMatchAfter, hc])

/-- Every match the `\d+(\.\d+)?` scan produces has the advertised shape. -/
theorem findAllDec_shape : ∀ (fuel : Nat) (l : List Char), ∀ t ∈ findAllDecAux fuel l, NumShape t := by
  intro fuel
  induction fuel with
  | zero => intro l t ht; simp [findAllDecAux] at ht
  | succ fuel ih =>
    intro l t ht
    cases l with
    | nil => simp [findAllDecAux] at ht
    | cons c cs =>
      by_cases hc : c.isDigit
      · simp only [findAllDecAux, if_pos hc] at ht
        rcases List.mem_cons.mp ht with rfl | hmem
        · have hd : digitRun (c :: cs) = (c :: (digitRun cs).1, (digitRun cs).2) := by
            simp [digitRun, hc]
          refine ⟨(digitRun (c :: cs)).1, ?_, digitRun_digits (c :: cs), ?_⟩
          · rw [hd]; exact List.cons_ne_nil _ _
          · rcases decMatchAfter_cases (digitRun (c :: cs)).2 with hf | ⟨d2, hne, hdig, hf⟩
            · exact Or.inl (by rw [hf, List.append_nil])
            · exact Or.inr ⟨d2, hne, hdig, by rw [hf]⟩
        · exact ih _ t hmem
      · simp only [findAllDecAux, if_neg hc] at ht
        exact ih _ t ht

/-- Claim C1 (failing evaluation): on a `summary` event whose `linesCovered`
key is absent, the loop body does print a warning and zero the field
(main.go lines 246-250) but then unconditionally runs
`event["linesCovered"].(string)` (line 252), which panics on the absent key;
the stream for that file produces no Metrics at all instead of degrading the
single field to 0. -/
theorem summary_missing_field_panics :
    sendRequestMetrics [summaryEvent (some "5") none (some "10") (some "1")] = none := by
  decide

/-- Claim C7 (failing evaluation and the parts of the claim that do hold):
an event carrying only a discriminator leaves the state unchanged for every
unrecognized discriminator, the empty stream yields the all-zero Metrics, but
a `calculatedCoverage` event whose payload key is absent panics at the
unchecked assertion on main.go line 215, so the reducer is not total on
well-formed streams. -/
theorem reducer_not_total_on_missing_payload :
    (∀ (st : Metrics) (d : Option String),
      processEvent st ⟨d, none, none, none, none, none⟩ =
        if d = some "calculatedCoverage" then none
        else if d = some "summary" then none else some st) ∧
    sendRequestMetrics [] = some Metrics.zero ∧
    sendRequestMetrics [⟨some "calculatedCoverage", none, none, none, none, none⟩] = none := by
  refine ⟨?_, rfl, by decide⟩
  intro st d
  by_cases h1 : d = some "calculatedCoverage"
  · simp [processEvent, processCalculated, h1]
  · by_cases h2 : d = some "summary" <;>
      simp [processEvent, processCalculated, processSummary, coverageField, h1, h2]

/-- Claim C5: for a `calculatedCoverage` event whose text is present, the
reducer sets `initialCoverage` to the numeric value of the last
`\d+(\.\d+)?` match when at least one exists (each match having the
digits-optional-fraction shape of the claim), leaves the state unchanged
when none does, and on the spec's example text the last match 45.5 wins. -/
theorem calculated_last_match (st : Metrics) (s : String) :
    (findAllDec s = [] → processEvent st (ccEvent s) = some st) ∧
    (∀ t, (findAllDec s).getLast? = some t →
      processEvent st (ccEvent s) = some { st with initialCoverage := toFloat t }) ∧
    (∀ t ∈ findAllDec s, NumShape t.data) ∧
    sendRequestMetrics [ccEvent "...running at 12, now 45.5%"] =
      some ⟨45.5, 0, 0, 0, 0⟩ := by
  refine ⟨?_, ?_, ?_, ?_⟩
  · intro h
    have h2 : (findAllDec s).getLast? = none := by rw [h]; rfl
    simp [processEvent, processCalculated, ccEvent, h2]
  · intro t ht
    simp [processEvent, processCalculated, ccEvent, ht]
  · intro t ht
    obtain ⟨u, hu, hmk⟩ := List.mem_map.mp ht
    subst hmk
    exact findAllDec_shape _ _ u hu
  · have hfa : findAllDec "...running at 12, now 45.5%" = ["12", "45.5"] := by decide
    have hlast : (findAllDec "...running at 12, now 45.5%").getLast? = some "45.5" := by
      rw [hfa]; rfl
    have h3 : natOfDigits ['4', '5'] = 45 := by decide
    have h4 : natOfDigits ['5'] = 5 := by decide
    have htf : toFloat "45.5" = 45.5 := by
      show (natOfDigits ['4', '5'] : ℚ) + (natOfDigits ['5'] : ℚ) / (10 : ℚ) ^ (['5'] : List Char).length = 45.5
      rw [h3, h4]
      norm_num
    have hproc : processEvent Metrics.zero (ccEvent "...running at 12, now 45.5%") =
        some ⟨toFloat "45.5", 0, 0, 0, 0⟩ := by
      simp [processEvent, processCalculated, ccEvent, hlast, Metrics.zero]
    calc sendRequestMetrics [ccEvent "...running at 12, now 45.5%"]
        = some ⟨toFloat "45.5", 0, 0, 0, 0⟩ := by
          simp [sendRequestMetrics, reduceEvents_cons, hproc, reduceEvents]
      _ = some ⟨45.5, 0, 0, 0, 0⟩ := by rw [htf]

/-- Witness for C5 at a concrete text with a single integer match. -/
theorem calculated_last_match_witness :
    processEvent ⟨1, 2, 3, 4, 5⟩ (ccEvent "abc 7") =
      some { (⟨1, 2, 3, 4, 5⟩ : Metrics) with initialCoverage := toFloat "7" } :=
  (calculated_last_match ⟨1, 2, 3, 4, 5⟩ "abc 7").2.1 "7" (by decide)

/-- Claim C9: the enumerator's test-file check searches the whole path for
the substring "test_", so every enumerated work item's path is free of it,
any path containing it (in a directory name included) is rejected, and in
particular the non-test source file /proj/test_utils/helpers.py — a `.py`
file, base name not __init__.py — is never processed. -/
theorem enumerator_excludes_test_paths :
    (∀ (paths : List String) (p : String),
      p ∈ enumerate paths → containsStr p "test_" = false) ∧
    (∀ p : String, containsStr p "test_" = true → walkAccepts p = false) ∧
    (pathExt "/proj/test_utils/helpers.py" = ".py" ∧
      baseName "/proj/test_utils/helpers.py" = "helpers.py" ∧
      walkAccepts "/proj/test_utils/helpers.py" = false) := by
  refine ⟨?_, ?_, by decide, by decide, by decide⟩
  · intro paths p hp
    have h := (List.mem_filter.mp hp).2
    cases hb : containsStr p "test_" with
    | false => rfl
    | true => simp [walkAccepts, isTestFile, hb] at h
  · intro p h
    simp [walkAccepts, isTestFile, h]

/-- Witness for C9: a clean path is enumerated and is "test_"-free. -/
theorem enumerator_excludes_test_paths_witness :
    containsStr "/proj/src/app.py" "test_" = false :=
  enumerator_excludes_test_paths.1 ["/proj/src/app.py"] "/proj/src/app.py" (by decide)

/-- `toFloat` never yields a negative value: its input grammar has no sign,
and a parse failure yields 0. -/
theorem toFloat_nonneg (s : String) : 0 ≤ toFloat s := by
  unfold toFloat
  repeat' split
  all_goals positivity

/-- A value produced for the coverage-delta field is non-negative whenever
the carried-in values are. -/
theorem coverageField_nonneg (i o : ℚ) (v : Option String) (x : ℚ)
    (hi : 0 ≤ i) (ho : 0 ≤ o) (h : coverageField i o v = some x) : 0 ≤ x := by
  cases v with
  | none => exact Option.noConfusion h
  | some s =>
    simp only [coverageField] at h
    by_cases hf : findFirstInt s = ""
    · rw [if_pos hf] at h
      rw [Option.some.injEq] at h
      subst h
      split
      · exact hi
      · split
        · exact le_refl 0
        · exact ho
    · rw [if_neg hf] at h
      rw [Option.some.injEq] at h
      subst h
      exact toFloat_nonneg _

/-- A value produced for an integer summary field is non-negative whenever
the carried-in value is. -/
theorem intField_nonneg (o : ℚ) (v : Option String) (x : ℚ)
    (ho : 0 ≤ o) (h : intField o v = some x) : 0 ≤ x := by
  cases v with
  | none => exact Option.noConfusion h
  | some s =>
    simp only [intField] at h
    by_cases hf : findFirstInt s = ""
    · rw [if_pos hf] at h
      rw [Option.some.injEq] at h
      subst h
      split
      · exact le_refl 0
      · exact ho
    · rw [if_neg hf] at h
      rw [Option.some.injEq] at h
      subst h
      exact toFloat_nonneg _

/-- One event step preserves non-negativity of all five fields. -/
theorem processEvent_nonneg (st st2 : Metrics) (e : RawEvent)
    (hst : MetricsNonneg st) (h : processEvent st e = some st2) : MetricsNonneg st2 := by
  obtain ⟨h1, h2, h3, h4, h5⟩ := hst
  unfold processEvent at h
  split at h
  · exact Option.noConfusion h
  · rename_i st1 hcalc
    have hst1 : MetricsNonneg st1 := by
      unfold processCalculated at hcalc
      split at hcalc
      · split at hcalc
        · exact Option.noConfusion hcalc
        · split at hcalc
          · rw [Option.some.injEq] at hcalc
            subst hcalc
            exact ⟨toFloat_nonneg _, h2, h3, h4, h5⟩
          · rw [Option.some.injEq] at hcalc
            subst hcalc
            exact ⟨h1, h2, h3, h4, h5⟩
      · rw [Option.some.injEq] at hcalc
        subst hcalc
        exact ⟨h1, h2, h3, h4, h5⟩
    obtain ⟨g1, g2, g3, g4, g5⟩ := hst1
    split at h
    · unfold processSummary at h
      split at h
      · exact Option.noConfusion h
      · rename_i fc hfc
        split at h
        · exact Option.noConfusion h
        · rename_i lc hlc
          split at h
          · exact Option.noConfusion h
          · rename_i tl htl
            split at h
            · exact Option.noConfusion h
            · rename_i ta hta
              rw [Option.some.injEq] at h
              subst h
              exact ⟨g1, coverageField_nonneg _ _ _ _ g1 g2 hfc,
                intField_nonneg _ _ _ g3 hlc, intField_nonneg _ _ _ g4 htl,
                intField_nonneg _ _ _ g5 hta⟩
    · rw [Option.some.injEq] at h
      subst h
      exact ⟨g1, g2, g3, g4, g5⟩

/-- The fold preserves non-negativity through a whole event sequence. -/
theorem reduceEvents_nonneg : ∀ (events : List RawEvent) (st m : Metrics),
    MetricsNonneg st → reduceEvents st events = some m → MetricsNonneg m := by
  intro events
  induction events with
  | nil =>
    intro st m hst h
    rw [reduceEvents, Option.some.injEq] at h
    subst h
    exact hst
  | cons e rest ih =>
    intro st m hst h
    rw [reduceEvents_cons] at h
    cases hp : processEvent st e with
    | none => rw [hp] at h; exact Option.noConfusion h
    | some st2 =>
      rw [hp, Option.some_bind] at h
      exact ih st2 m (processEvent_nonneg st st2 e hst hp) h

/-- Claim C10: every Metrics record the reducer produces has all five fields
non-negative — the extraction patterns are unsigned, `toFloat` maps parse
failures to 0, and every field is either a default 0, carried forward, or
set from such an extraction. -/
theorem metrics_fields_nonneg (events : List RawEvent) (m : Metrics)
    (h : sendRequestMetrics events = some m) :
    0 ≤ m.initialCoverage ∧ 0 ≤ m.finalCoverage ∧ 0 ≤ m.linesCovered ∧
      0 ≤ m.totalLines ∧ 0 ≤ m.testAdded :=
  reduceEvents_nonneg events Metrics.zero m
    ⟨le_refl 0, le_refl 0, le_refl 0, le_refl 0, le_refl 0⟩ h

/-- Witness for C10 at a concrete stream. -/
theorem metrics_fields_nonneg_witness :
    0 ≤ (⟨12, 0, 0, 0, 0⟩ : Metrics).initialCoverage ∧
      0 ≤ (⟨12, 0, 0, 0, 0⟩ : Metrics).finalCoverage ∧
      0 ≤ (⟨12, 0, 0, 0, 0⟩ : Metrics).linesCovered ∧
      0 ≤ (⟨12, 0, 0, 0, 0⟩ : Metrics).totalLines ∧
      0 ≤ (⟨12, 0, 0, 0, 0⟩ : Metrics).testAdded :=
  metrics_fields_nonneg [ccEvent "12%"] ⟨12, 0, 0, 0, 0⟩ (by decide)

/-- Dispatch-count over a leading dispatch action. -/
theorem countDispatch_cons_dispatch (i : Nat) (f : String) (s : Nat) (t : List DriverAction) :
    countDispatch (DriverAction.dispatch i f s :: t) = countDispatch t + 1 := by
  simp [countDispatch, List.filter, isDispatch]

/-- Dispatch-count over a leading record action. -/
theorem countDispatch_cons_record (i : Nat) (f : String) (m : Metrics) (s e : Nat)
    (t : List DriverAction) :
    countDispatch (DriverAction.record i f m s e :: t) = countDispatch t := by
  simp [countDispatch, List.filter, isDispatch]

/-- Dispatch-count over a leading persist action. -/
theorem countDispatch_cons_persist (i : Nat) (t : List DriverAction) :
    countDispatch (DriverAction.persist i :: t) = countDispatch t := by
  simp [countDispatch, List.filter, isDispatch]

/-- Record-count over a leading dispatch action. -/
theorem countRecord_cons_dispatch (i : Nat) (f : String) (s : Nat) (t : List DriverAction) :
    countRecord (DriverAction.dispatch i f s :: t) = countRecord t := by
  simp [countRecord, List.filter, isRecordAct]

/-- Record-count over a leading record action. -/
theorem countRecord_cons_record (i : Nat) (f : String) (m : Metrics) (s e : Nat)
    (t : List DriverAction) :
    countRecord (DriverAction.record i f m s e :: t) = countRecord t + 1 := by
  simp [countRecord, List.filter, isRecordAct]

/-- Record-count over a leading persist action. -/
theorem countRecord_cons_persist (i : Nat) (t : List DriverAction) :
    countRecord (DriverAction.persist i :: t) = countRecord t := by
  simp [countRecord, List.filter, isRecordAct]

/-- Each work item contributes exactly one dispatch to the trace, so the
loop visits every item of the batch whatever the outcomes are. -/
theorem driverTrace_countDispatch : ∀ (l : List ItemRun) (idx c : Nat),
    countDispatch (driverTrace idx c l) = l.length := by
  intro l
  induction l with
  | nil => intro idx c; simp [driverTrace, countDispatch]
  | cons r rest ih =>
    intro idx c
    cases hout : r.outcome with
    | ok m =>
      simp only [driverTrace, hout, List.cons_append, List.nil_append]
      rw [countDispatch_cons_dispatch, countDispatch_cons_record,
        countDispatch_cons_persist, ih]
      rfl
    | error e =>
      simp only [driverTrace, hout, List.nil_append]
      rw [countDispatch_cons_dispatch, ih]
      rfl

/-- Each work item contributes at most one record to the trace. -/
theorem driverTrace_countRecord_le : ∀ (l : List ItemRun) (idx c : Nat),
    countRecord (driverTrace idx c l) ≤ l.length := by
  intro l
  induction l with
  | nil => intro idx c; simp [driverTrace, countRecord]
  | cons r rest ih =>
    intro idx c
    cases hout : r.outcome with
    | ok m =>
      simp only [driverTrace, hout, List.cons_append, List.nil_append]
      rw [countRecord_cons_dispatch, countRecord_cons_record, countRecord_cons_persist]
      have := ih (idx + 1) (c + r.dur)
      simp only [List.length_cons]
      omega
    | error e =>
      simp only [driverTrace, hout, List.nil_append]
      rw [countRecord_cons_dispatch]
      have := ih (idx + 1) (c + r.dur)
      simp only [List.length_cons]
      omega

/-- The trace of the first `k` items is a prefix of the whole trace. -/
theorem driverTrace_take_prefix : ∀ (l : List ItemRun) (k idx c : Nat),
    ∃ t2, driverTrace idx c l = driverTrace idx c (l.take k) ++ t2 := by
  intro l
  induction l with
  | nil => intro k idx c; exact ⟨[], by simp [driverTrace]⟩
  | cons r rest ih =>
    intro k idx c
    cases k with
    | zero => exact ⟨driverTrace idx c (r :: rest), by simp [driverTrace]⟩
    | succ k =>
      obtain ⟨t2, ht⟩ := ih k (idx + 1) (c + r.dur)
      refine ⟨t2, ?_⟩
      rw [List.take_succ_cons]
      simp only [driverTrace, ht, List.cons_append, List.append_assoc]

/-- A record for item `j` appears in the trace only if item `j` succeeded
with exactly the recorded Metrics. -/
theorem driverTrace_record_mem : ∀ (l : List ItemRun) (idx c j : Nat) (f : String)
    (m : Metrics) (s t : Nat),
    DriverAction.record j f m s t ∈ driverTrace idx c l →
    ∃ i, ∃ hi : i < l.length, idx + i = j ∧ (l.get ⟨i, hi⟩).outcome = Except.ok m := by
  intro l
  induction l with
  | nil => intro idx c j f m s t h; simp [driverTrace] at h
  | cons r rest ih =>
    intro idx c j f m s t h
    cases hout : r.outcome with
    | ok m0 =>
      rw [driverTrace, hout] at h
      rcases List.mem_cons.mp h with heq | h2
      · exact absurd heq (by simp)
      · rcases List.mem_append.mp h2 with hb | htail
        · rcases List.mem_cons.mp hb with heq | hb2
          · rw [DriverAction.record.injEq] at heq
            refine ⟨0, by simp, by omega, ?_⟩
            rw [List.get, hout, heq.2.2.1]
          · rcases List.mem_cons.mp hb2 with heq | hb3
            · exact absurd heq (by simp)
            · simp at hb3
        · obtain ⟨i, hi, hij, hok⟩ := ih (idx + 1) (c + r.dur) j f m s t htail
          exact ⟨i + 1, Nat.succ_lt_succ hi, by omega, hok⟩
    | error e =>
      rw [driverTrace, hout] at h
      rcases List.mem_cons.mp h with heq | h2
      · exact absurd heq (by simp)
      · rw [List.nil_append] at h2
        obtain ⟨i, hi, hij, hok⟩ := ih (idx + 1) (c + r.dur) j f m s t h2
        exact ⟨i + 1, Nat.succ_lt_succ hi, by omega, hok⟩

/-- Item `i` is always dispatched, at the clock time that accumulates the
durations of the items before it. -/
theorem driverTrace_dispatch_mem : ∀ (l : List ItemRun) (idx c i : Nat) (hi : i < l.length),
    DriverAction.dispatch (idx + i) ((l.get ⟨i, hi⟩).file) (c + durSum (l.take i)) ∈
      driverTrace idx c l := by
  intro l
  induction l with
  | nil => intro idx c i hi; exact absurd hi (by simp)
  | cons r rest ih =>
    intro idx c i hi
    cases i with
    | zero =>
      rw [driverTrace]
      have h0 : durSum ((r :: rest).take 0) = 0 := rfl
      rw [h0]
      exact List.mem_cons.mpr (Or.inl (by simp))
    | succ i =>
      have hi2 : i < rest.length := Nat.lt_of_succ_lt_succ hi
      have hmem := ih (idx + 1) (c + r.dur) i hi2
      have h1 : idx + (i + 1) = idx + 1 + i := by omega
      have h2 : durSum ((r :: rest).take (i + 1)) = r.dur + durSum (rest.take i) := by
        rw [List.take_succ_cons]
        simp [durSum]
      have h3 : ((r :: rest).get ⟨i + 1, hi⟩) = rest.get ⟨i, hi2⟩ := rfl
      rw [h1, h2, h3, ← Nat.add_assoc]
      rw [driverTrace]
      exact List.mem_cons.mpr (Or.inr (List.mem_append.mpr (Or.inr hmem)))

/-- Claim C6: a work item whose processing fails (with one of the error
kinds `measureDuration` returns: request construction, transport, non-200
status, stream decode) contributes no BatchRecord to the run, every item of
the batch is still dispatched — the run is never cut short by such a
failure, only by exhausting the items — and in particular item k+1 is
dispatched with the correctly accumulated start time. -/
theorem item_failure_isolation (runs : List ItemRun) (k : Nat) (hk : k < runs.length)
    (herr : isErr ((runs.get ⟨k, hk⟩).outcome) = true) :
    (∀ f m s t, DriverAction.record k f m s t ∉ driverTrace 0 0 runs) ∧
    countDispatch (driverTrace 0 0 runs) = runs.length ∧
    (∀ hk1 : k + 1 < runs.length,
      DriverAction.dispatch (k + 1) ((runs.get ⟨k + 1, hk1⟩).file)
        (durSum (runs.take (k + 1))) ∈ driverTrace 0 0 runs) := by
  refine ⟨?_, driverTrace_countDispatch runs 0 0, ?_⟩
  · intro f m s t hmem
    obtain ⟨i, hi, hik, hok⟩ := driverTrace_record_mem runs 0 0 k f m s t hmem
    have : i = k := by omega
    subst this
    rw [hok] at herr
    exact Bool.noConfusion ((rfl : isErr (Except.ok m) = false) ▸ herr)
  · intro hk1
    have := driverTrace_dispatch_mem runs 0 0 (k + 1) hk1
    simpa using this

/-- Witness for C6: the first item of the sample batch fails with a stream
decode error; the second is still dispatched and no record exists for the
first. -/
theorem item_failure_isolation_witness :
    (∀ f m s t, DriverAction.record 0 f m s t ∉ driverTrace 0 0 sampleRunsA) ∧
    countDispatch (driverTrace 0 0 sampleRunsA) = sampleRunsA.length ∧
    (∀ hk1 : 0 + 1 < sampleRunsA.length,
      DriverAction.dispatch (0 + 1) ((sampleRunsA.get ⟨0 + 1, hk1⟩).file)
        (durSum (sampleRunsA.take (0 + 1))) ∈ driverTrace 0 0 sampleRunsA) :=
  item_failure_isolation sampleRunsA 0 (by decide) (by decide)

/-- In the trace of a batch, a successful item's persist action is
immediately followed by the dispatch of the next item (generalized over the
starting index and clock). -/
theorem driverTrace_persist_dispatch : ∀ (l : List ItemRun) (idx c k : Nat)
    (hk1 : k + 1 < l.length),
    isErr ((l.get ⟨k, Nat.lt_of_succ_lt hk1⟩).outcome) = false →
    ∃ t1 t3, driverTrace idx c l =
      t1 ++ DriverAction.persist (idx + k) ::
        DriverAction.dispatch (idx + (k + 1)) ((l.get ⟨k + 1, hk1⟩).file)
          (c + durSum (l.take (k + 1))) :: t3 := by
  intro l
  induction l with
  | nil => intro idx c k hk1 herr; exact absurd hk1 (by simp)
  | cons r rest ih =>
    intro idx c k hk1 herr
    cases k with
    | zero =>
      cases rest with
      | nil => exact absurd hk1 (by simp)
      | cons r2 rest2 =>
        cases hout : r.outcome with
        | error e =>
          have : isErr ((( r :: r2 :: rest2).get ⟨0, Nat.lt_of_succ_lt hk1⟩).outcome) = true := by
            rw [List.get, hout]; rfl
          rw [this] at herr
          exact Bool.noConfusion herr
        | ok m =>
          obtain ⟨t3, ht3⟩ : ∃ t3, driverTrace (idx + 1) (c + r.dur) (r2 :: rest2) =
              DriverAction.dispatch (idx + 1) r2.file (c + r.dur) :: t3 := ⟨_, rfl⟩
          refine ⟨[DriverAction.dispatch idx r.file c,
            DriverAction.record idx r.file m c (c + r.dur)], t3, ?_⟩
          have hd : durSum ((r :: r2 :: rest2).take (0 + 1)) = r.dur := by
            simp [durSum]
          rw [driverTrace, hout, ht3, hd]
          simp
    | succ k =>
      have hk1r : k + 1 < rest.length := Nat.lt_of_succ_lt_succ hk1
      have herr2 : isErr ((rest.get ⟨k, Nat.lt_of_succ_lt hk1r⟩).outcome) = false := herr
      obtain ⟨t1, t3, ht⟩ := ih (idx + 1) (c + r.dur) k hk1r herr2
      have e1 : idx + 1 + k = idx + (k + 1) := by omega
      have e2 : idx + 1 + (k + 1) = idx + (k + 1 + 1) := by omega
      have e3 : c + r.dur + durSum (rest.take (k + 1)) =
          c + durSum ((r :: rest).take (k + 1 + 1)) := by
        rw [List.take_succ_cons]
        simp [durSum, Nat.add_assoc]
      have e4 : ((rest.get ⟨k + 1, hk1r⟩).file) = (((r :: rest).get ⟨k + 1 + 1, hk1⟩).file) := rfl
      rw [e1, e2, e3, e4] at ht
      cases hout : r.outcome with
      | ok m =>
        refine ⟨DriverAction.dispatch idx r.file c ::
          DriverAction.record idx r.file m c (c + r.dur) ::
          DriverAction.persist idx :: t1, t3, ?_⟩
        rw [driverTrace, hout, ht]
        simp
      | error e =>
        refine ⟨DriverAction.dispatch idx r.file c :: t1, t3, ?_⟩
        rw [driverTrace, hout, ht]
        simp

/-- Claim C8: the number of BatchRecords never exceeds the number of work
items processed so far — the trace of the first `k` items is a prefix of the
whole trace and holds at most `k` records — and for every successful item
`k` the SaveAs persist of its record happens strictly before (here:
immediately before) the dispatch of item `k + 1`; the sink is flushed after
every single successful item, never batched. -/
theorem persist_before_next_dispatch (runs : List ItemRun) :
    (∀ k : Nat, countRecord (driverTrace 0 0 (runs.take k)) ≤ k ∧
      ∃ t2, driverTrace 0 0 runs = driverTrace 0 0 (runs.take k) ++ t2) ∧
    (∀ (k : Nat) (hk1 : k + 1 < runs.length),
      isErr ((runs.get ⟨k, Nat.lt_of_succ_lt hk1⟩).outcome) = false →
      ∃ t1 t3, driverTrace 0 0 runs =
        t1 ++ DriverAction.persist k ::
          DriverAction.dispatch (k + 1) ((runs.get ⟨k + 1, hk1⟩).file)
            (durSum (runs.take (k + 1))) :: t3) := by
  constructor
  · intro k
    refine ⟨?_, driverTrace_take_prefix runs k 0 0⟩
    calc countRecord (driverTrace 0 0 (runs.take k)) ≤ (runs.take k).length :=
          driverTrace_countRecord_le (runs.take k) 0 0
      _ ≤ k := by rw [List.length_take]; omega
  · intro k hk1 herr
    have := driverTrace_persist_dispatch runs 0 0 k hk1 herr
    simpa using this

/-- Witness for C8: in the sample batch whose first item succeeds, the
persist of record 0 occurs immediately before the dispatch of item 1. -/
theorem persist_before_next_dispatch_witness :
    ∃ t1 t3, driverTrace 0 0 sampleRunsB =
      t1 ++ DriverAction.persist 0 ::
        DriverAction.dispatch (0 + 1) ((sampleRunsB.get ⟨0 + 1, by decide⟩).file)
          (durSum (sampleRunsB.take (0 + 1))) :: t3 :=
  (persist_before_next_dispatch sampleRunsB).2 0 (by decide) (by decide)

end MetricsScript
